import Mathlib

/-
Shallow embedding of the raw-mode line editor in src/io.js.

JavaScript strings are modelled as lists of characters (JStr); JS
slice/length/concat become List.take, List.drop, List.length and append.
The IO object fields become the IOState record; the closure variable
closeOnThisOne (the exit guard) is threaded separately through handleKey,
mirroring the fact that it is a closure local, not an object field.
Terminal writes, submission-handler calls and completion-lookup calls are
recorded in an effect list. The construction-time capabilities (onLine,
onAutocomplete, transformBuffer) are a parameter record; onLine returns
the text that the editor echoes.
-/

namespace Repl

abbrev JStr := List Char

/-- Observable effects: terminal writes, cursor-positioning, the
submission-handler invocation and the completion-lookup invocation. -/
inductive Eff where
  | write (s : String)
  | writeGrey (s : String)
  | curTo (n : Nat)
  | clearDown
  | submit (line : JStr)
  | lookup (buf : JStr)
deriving DecidableEq, Repr

/-- The fields of the IO object: buffer, cursor, prefix text (pfx),
suffix (the ghost suggestion; empty list means no suggestion), the pause
flag, completionList (none models the JS undefined), history and the
history index bolted onto the history array in the JS code. -/
structure IOState where
  buffer : JStr
  cursor : Nat
  pfx : JStr
  suffix : JStr
  paused : Bool
  completionList : Option (List JStr)
  history : List JStr
  histIndex : Int
deriving DecidableEq, Repr

/-- Construction-time capabilities of the IO constructor.  A lookup
result of none models a falsy JS return value (undefined/null); note an
empty array is truthy in JS, hence is modelled as some []. -/
structure Caps where
  onLine : JStr → JStr
  onAutocomplete : Option (JStr → Option (List JStr))
  transformBuffer : Option (JStr → JStr)

/-- A decoded key event: the (s, key) pair passed to the emitKeys
callback, with seq the raw payload string s. -/
structure Key where
  name : Option String
  ctrl : Bool
  meta : Bool
  seq : JStr
deriving DecidableEq, Repr

/-- Result of one callback invocation: whether the decoder returned the
termination value -1, the new value of the closeOnThisOne closure
variable, the new object state and the emitted effects. -/
structure HandleResult where
  exit : Bool
  guard : Bool
  st : IOState
  effs : List Eff
deriving DecidableEq, Repr

/-- The warning printed by a first unguarded ctrl/meta-c press. -/
def warnMsg (n : String) : String :=
  "\n(To exit, press ^" ++ n.toUpper ++ " again or call exit)\n"

/-- s.split on the regex matching CRLF, LF or CR, exactly as
String.prototype.split with /\r\n|\n|\r/ behaves. -/
def splitLines : JStr → List JStr
  | [] => [[]]
  | '\r' :: '\n' :: rest => [] :: splitLines rest
  | '\r' :: rest => [] :: splitLines rest
  | '\n' :: rest => [] :: splitLines rest
  | c :: rest =>
    match splitLines rest with
    | [] => [[c]]
    | h :: t => (c :: h) :: t

/-- The buffer update performed by appendToBuffer: splice s in at the
cursor when the cursor is strictly inside the buffer, else append. -/
def insertAt (b : JStr) (c : Nat) (s : JStr) : JStr :=
  if c < b.length then b.take c ++ s ++ b.drop c else b ++ s

/-- addSuffix: display a ghost suggestion.  Returns early when paused or
when the cursor is not at the end of the buffer. -/
def addSuffix (st : IOState) (s : JStr) : IOState × List Eff :=
  if st.paused = true ∨ st.cursor ≠ st.buffer.length then (st, [])
  else
    ({ st with suffix := s },
     [Eff.clearDown, Eff.writeGrey (String.mk s), Eff.curTo (st.cursor + st.pfx.length)])

/-- The body of refresh apart from the trailing autocomplete call:
clear the completion list and suffix, clear the screen, write the
(possibly transformed) buffer after the prefix and reposition the
cursor.  This is exactly refresh(false). -/
def refreshBase (caps : Caps) (st : IOState) : IOState × List Eff :=
  if st.paused = true then (st, [])
  else
    let st1 := { st with completionList := none, suffix := [] }
    let b := match caps.transformBuffer with
             | some f => f st1.buffer
             | none => st1.buffer
    (st1,
     [Eff.curTo 0, Eff.clearDown, Eff.write (String.mk (st1.pfx ++ b)),
      Eff.curTo (st1.cursor + st1.pfx.length)])

/-- autocomplete: no-op without the lookup capability; with a present
nonempty completion list, shift the first candidate and display it; with
a present empty list, clear to absent and redraw; with an absent list,
invoke the lookup, and on a truthy result store it and recurse once
(the single recursive call of the JS code, unfolded). -/
def autocomplete (caps : Caps) (st : IOState) : IOState × List Eff :=
  match caps.onAutocomplete with
  | none => (st, [])
  | some f =>
    match st.completionList with
    | some (x :: rest) => addSuffix { st with completionList := some rest } x
    | some [] => refreshBase caps { st with completionList := none }
    | none =>
      match f st.buffer with
      | none => (st, [Eff.lookup st.buffer])
      | some c =>
        match c with
        | x :: rest =>
          let p := addSuffix { st with completionList := some rest } x
          (p.1, Eff.lookup st.buffer :: p.2)
        | [] =>
          let p := refreshBase caps { st with completionList := none }
          (p.1, Eff.lookup st.buffer :: p.2)

/-- refresh(complete): no-op while paused; otherwise redraw, and when
complete is true and the buffer is nonempty run the autocomplete cycler
once (the auto-preview behavior). -/
def refresh (caps : Caps) (st : IOState) (complete : Bool) : IOState × List Eff :=
  if st.paused = true then (st, [])
  else
    let p := refreshBase caps st
    if complete = true ∧ p.1.buffer ≠ [] then
      let q := autocomplete caps p.1
      (q.1, p.2 ++ q.2)
    else p

/-- appendToBuffer: splice the text in at the cursor, advance the cursor
by its length and refresh. -/
def appendToBuffer (caps : Caps) (st : IOState) (s : JStr) : IOState × List Eff :=
  refresh caps { st with buffer := insertAt st.buffer st.cursor s,
                         cursor := st.cursor + s.length } true

/-- moveCursor(n): silently rejected when the target is outside the
buffer; otherwise move and refresh. -/
def moveCursor (caps : Caps) (st : IOState) (n : Int) : IOState × List Eff :=
  if (st.cursor : Int) + n < 0 ∨ (st.cursor : Int) + n > (st.buffer.length : Int) then
    (st, [])
  else
    refresh caps { st with cursor := ((st.cursor : Int) + n).toNat } true

/-- One inner-segment boundary of the paste loop (the i > 0 prelude of
the default case): with a nonempty buffer, redraw without autocomplete,
pause, write a newline, capture and clear the buffer, prepend the line
to history, invoke the submission handler and echo its result, unpause
and refresh; with an empty buffer, just write a bare newline and
refresh. -/
def boundary (caps : Caps) (st : IOState) : IOState × List Eff :=
  if st.buffer ≠ [] then
    let p := refresh caps st false
    let st2 := { p.1 with paused := true }
    let b := st2.buffer
    let st3 := { st2 with buffer := [], cursor := 0, history := b :: st2.history }
    let st4 := { st3 with paused := false }
    let q := refresh caps st4 true
    (q.1, p.2 ++ Eff.write "\n" :: Eff.submit b ::
          Eff.write (String.mk (caps.onLine b) ++ "\n") :: q.2)
  else
    let q := refresh caps st true
    (q.1, Eff.write "\n" :: q.2)

/-- The paste loop after its first segment: each further segment is
preceded by a boundary and then spliced into the buffer. -/
def pasteRest (caps : Caps) : IOState → List JStr → IOState × List Eff
  | st, [] => (st, [])
  | st, l :: rest =>
    let p := boundary caps st
    let q := appendToBuffer caps p.1 l
    let r := pasteRest caps q.1 rest
    (r.1, p.2 ++ q.2 ++ r.2)

/-- The default case of the key switch: a falsy (empty) payload does
nothing; otherwise reset history browsing, split the payload into
line-terminator-delimited segments, splice the first segment in and run
the paste loop over the rest. -/
def handleDefault (caps : Caps) (st : IOState) (s : JStr) : IOState × List Eff :=
  if s = [] then (st, [])
  else
    let st0 := { st with histIndex := -1 }
    match splitLines s with
    | [] => (st0, [])
    | l :: rest =>
      let p := appendToBuffer caps st0 l
      let q := pasteRest caps p.1 rest
      (q.1, p.2 ++ q.2)

/-- The switch over key.name in the key handler (all non-modifier
cases). -/
def dispatchSwitch (caps : Caps) (st : IOState) (k : Key) : IOState × List Eff :=
  if k.name = some "up" then
    if (st.history.length : Int) - 1 ≤ st.histIndex then (st, [])
    else
      let b := st.history.getD (st.histIndex + 1).toNat []
      refresh caps { st with histIndex := st.histIndex + 1, buffer := b,
                             cursor := b.length } true
  else if k.name = some "down" then
    if st.histIndex ≤ 0 then
      refresh caps { st with buffer := [], cursor := 0 } true
    else
      let b := st.history.getD (st.histIndex - 1).toNat []
      refresh caps { st with histIndex := st.histIndex - 1, buffer := b,
                             cursor := b.length } true
  else if k.name = some "left" then
    moveCursor caps st (-1)
  else if k.name = some "right" then
    if st.cursor = st.buffer.length then
      if st.suffix ≠ [] then
        refresh caps { st with completionList := none,
                               buffer := st.buffer ++ st.suffix,
                               cursor := st.cursor + st.suffix.length } true
      else (st, [])
    else moveCursor caps st 1
  else if k.name = some "delete" ∨ k.name = some "backspace" then
    if st.cursor = 0 then (st, [])
    else
      moveCursor caps
        { st with buffer := st.buffer.take (st.cursor - 1) ++
                            st.buffer.drop st.cursor } (-1)
  else if k.name = some "tab" then
    autocomplete caps st
  else
    handleDefault caps st k.seq

/-- The full emitKeys callback: the ctrl/meta prelude (immediate exit on
d/z, guarded exit on c), then disarm the guard and run the switch. -/
def handleKey (caps : Caps) (guard : Bool) (st : IOState) (k : Key) : HandleResult :=
  if (k.ctrl = true ∨ k.meta = true) ∧ (k.name = some "d" ∨ k.name = some "z") then
    ⟨true, guard, st, []⟩
  else if (k.ctrl = true ∨ k.meta = true) ∧ k.name = some "c" then
    if guard = true then ⟨true, guard, st, []⟩
    else ⟨false, true, { st with buffer := [], cursor := 0 },
          [Eff.write (warnMsg (k.name.getD ""))]⟩
  else
    let p := dispatchSwitch caps st k
    ⟨false, false, p.1, p.2⟩

/-- The cursor invariant of the line state. -/
def inv (st : IOState) : Prop := st.cursor ≤ st.buffer.length

/-- The submission-handler invocations recorded in an effect list, in
order. -/
def submits (effs : List Eff) : List JStr :=
  effs.filterMap fun e =>
    match e with
    | Eff.submit l => some l
    | _ => none

/-- The lines the paste loop submits, one per boundary whose preceding
buffer content is nonempty: the first argument is the buffer content in
force at the first boundary, the list holds the remaining segments. -/
def expectedSubmits : JStr → List JStr → List JStr
  | _, [] => []
  | b, l :: rest => (if b = [] then [] else [b]) ++ expectedSubmits l rest

/-- The suggestion that ends up displayed after a refresh-with-
autocomplete on a nonempty buffer b, starting from a cleared completion
list and suffix: the head of a fresh lookup on b, when the capability
exists and yields a nonempty list. -/
def freshSuggestion (caps : Caps) (b : JStr) : JStr :=
  match caps.onAutocomplete with
  | none => []
  | some f =>
    match f b with
    | some (x :: _) => x
    | _ => []

def downKey : Key := ⟨some "down", false, false, []⟩
def leftKey : Key := ⟨some "left", false, false, []⟩
def rightKey : Key := ⟨some "right", false, false, []⟩
def tabKey : Key := ⟨some "tab", false, false, []⟩

def caps0 : Caps := ⟨fun l => l, none, none⟩

def emptySt : IOState := ⟨[], 0, [], [], false, none, [], -1⟩

/-- The state reached after submitting "a" then "b" and browsing with
"up" twice and "down" once: buffer "b", history most-recent-first,
history index 0. -/
def stC1 : IOState := ⟨['b'], 1, [], [], false, none, [['b'], ['a']], 0⟩

/-- A browsing state one entry deeper: buffer "a", history index 1. -/
def stD1 : IOState := ⟨['a'], 1, [], [], false, none, [['b'], ['a']], 1⟩

/-- Buffer "ab" with the cursor between the two characters. -/
def stC5 : IOState := ⟨['a', 'b'], 1, [], [], false, none, [], -1⟩

/-- Capabilities whose completion lookup always offers the single
candidate "z". -/
def caps6 : Caps := ⟨fun l => l, some fun _ => some [['z']], none⟩

/-- Buffer "a", cursor at end, ghost suggestion "foo" displayed. -/
def st6 : IOState := ⟨['a'], 1, [], ['f', 'o', 'o'], false, none, [], -1⟩

/-- Capabilities whose completion lookup answers ["abc", "abd"] for the
buffer "ab" and nothing otherwise. -/
def caps7 : Caps :=
  ⟨fun l => l,
   some fun b => if b = ['a', 'b'] then some [['a', 'b', 'c'], ['a', 'b', 'd']] else none,
   none⟩

/-- Buffer "ab" with the cursor at its end and no queue or suggestion. -/
def st7 : IOState := ⟨['a', 'b'], 2, [], [], false, none, [], -1⟩

def tabSt1 : IOState := (handleKey caps7 false st7 tabKey).st
def tabSt2 : IOState := (handleKey caps7 false tabSt1 tabKey).st
def tabSt3 : IOState := (handleKey caps7 false tabSt2 tabKey).st
def tabSt4 : IOState := (handleKey caps7 false tabSt3 tabKey).st

/-- A paused state holding the single queued candidate "q". -/
def st10 : IOState := ⟨['a'], 1, [], [], true, some [['q']], [], -1⟩

/-- The plain keystroke "a". -/
def kA : Key := ⟨none, false, false, ['a']⟩

/-! Preservation lemmas: the rendering layer (addSuffix, refreshBase,
autocomplete, refresh) never touches the buffer, the cursor, the
history, the history index or the pause flag. -/

theorem addSuffix_core (st : IOState) (s : JStr) :
    (addSuffix st s).1.buffer = st.buffer ∧ (addSuffix st s).1.cursor = st.cursor ∧
      (addSuffix st s).1.history = st.history ∧
      (addSuffix st s).1.histIndex = st.histIndex ∧
      (addSuffix st s).1.paused = st.paused := by
  unfold addSuffix
  split <;> exact ⟨rfl, rfl, rfl, rfl, rfl⟩

theorem refreshBase_core (caps : Caps) (st : IOState) :
    (refreshBase caps st).1.buffer = st.buffer ∧
      (refreshBase caps st).1.cursor = st.cursor ∧
      (refreshBase caps st).1.history = st.history ∧
      (refreshBase caps st).1.histIndex = st.histIndex ∧
      (refreshBase caps st).1.paused = st.paused := by
  unfold refreshBase
  split <;> exact ⟨rfl, rfl, rfl, rfl, rfl⟩

theorem autocomplete_core (caps : Caps) (st : IOState) :
    (autocomplete caps st).1.buffer = st.buffer ∧
      (autocomplete caps st).1.cursor = st.cursor ∧
      (autocomplete caps st).1.history = st.history ∧
      (autocomplete caps st).1.histIndex = st.histIndex ∧
      (autocomplete caps st).1.paused = st.paused := by
  unfold autocomplete
  repeat' split
  all_goals first
    | exact ⟨rfl, rfl, rfl, rfl, rfl⟩
    | exact addSuffix_core _ _
    | exact refreshBase_core caps _

theorem refresh_core (caps : Caps) (st : IOState) (c : Bool) :
    (refresh caps st c).1.buffer = st.buffer ∧
      (refresh caps st c).1.cursor = st.cursor ∧
      (refresh caps st c).1.history = st.history ∧
      (refresh caps st c).1.histIndex = st.histIndex ∧
      (refresh caps st c).1.paused = st.paused := by
  unfold refresh
  split
  case isTrue => exact ⟨rfl, rfl, rfl, rfl, rfl⟩
  case isFalse =>
    dsimp only
    split
    case isTrue =>
      have h1 := refreshBase_core caps st
      have h2 := autocomplete_core caps (refreshBase caps st).1
      exact ⟨h2.1.trans h1.1, h2.2.1.trans h1.2.1, h2.2.2.1.trans h1.2.2.1,
             h2.2.2.2.1.trans h1.2.2.2.1, h2.2.2.2.2.trans h1.2.2.2.2⟩
    case isFalse => exact refreshBase_core caps st

/-! Submission-effect lemmas: only a boundary of the paste loop ever
emits a submission; rendering emits none. -/

theorem submits_append (a b : List Eff) : submits (a ++ b) = submits a ++ submits b := by
  simp [submits]

theorem submits_addSuffix (st : IOState) (s : JStr) : submits (addSuffix st s).2 = [] := by
  unfold addSuffix
  split <;> rfl

theorem submits_refreshBase (caps : Caps) (st : IOState) :
    submits (refreshBase caps st).2 = [] := by
  unfold refreshBase
  split <;> rfl

theorem submits_lookup_cons (b : JStr) (l : List Eff) :
    submits (Eff.lookup b :: l) = submits l := rfl

theorem submits_autocomplete (caps : Caps) (st : IOState) :
    submits (autocomplete caps st).2 = [] := by
  unfold autocomplete
  repeat' split
  all_goals first
    | rfl
    | exact submits_addSuffix _ _
    | exact submits_refreshBase caps _

theorem submits_refresh (caps : Caps) (st : IOState) (c : Bool) :
    submits (refresh caps st c).2 = [] := by
  unfold refresh
  split
  case isTrue => rfl
  case isFalse =>
    dsimp only
    split
    case isTrue =>
      rw [submits_append, submits_refreshBase, submits_autocomplete]
      rfl
    case isFalse => exact submits_refreshBase caps st

theorem submits_appendToBuffer (caps : Caps) (st : IOState) (s : JStr) :
    submits (appendToBuffer caps st s).2 = [] :=
  submits_refresh caps _ true

theorem submits_moveCursor (caps : Caps) (st : IOState) (n : Int) :
    submits (moveCursor caps st n).2 = [] := by
  unfold moveCursor
  split
  case isTrue => rfl
  case isFalse => exact submits_refresh caps _ true

/-! Buffer-shape lemmas for the paste loop. -/

theorem appendToBuffer_buffer (caps : Caps) (st : IOState) (s : JStr) :
    (appendToBuffer caps st s).1.buffer = insertAt st.buffer st.cursor s :=
  (refresh_core caps _ true).1

theorem appendToBuffer_cursor (caps : Caps) (st : IOState) (s : JStr) :
    (appendToBuffer caps st s).1.cursor = st.cursor + s.length :=
  (refresh_core caps _ true).2.1

theorem insertAt_nil (c : Nat) (s : JStr) : insertAt [] c s = s := by
  unfold insertAt
  simp

theorem boundary_buffer (caps : Caps) (st : IOState) :
    (boundary caps st).1.buffer = [] := by
  unfold boundary
  split
  case isTrue =>
    dsimp only
    exact (refresh_core caps _ true).1
  case isFalse h =>
    have h1 := (refresh_core caps st true).1
    dsimp only
    rw [h1]
    exact not_ne_iff.mp h

theorem submits_mid (b : JStr) (r : String) (l1 l2 : List Eff) (h1 : submits l1 = [])
    (h2 : submits l2 = []) :
    submits (l1 ++ Eff.write "\n" :: Eff.submit b :: Eff.write r :: l2) = [b] := by
  rw [submits_append, h1]
  have h3 : submits (Eff.write "\n" :: Eff.submit b :: Eff.write r :: l2) =
      b :: submits l2 := rfl
  rw [h3, h2]
  rfl

theorem boundary_submits (caps : Caps) (st : IOState) :
    submits (boundary caps st).2 = if st.buffer = [] then [] else [st.buffer] := by
  unfold boundary
  split
  case isTrue h =>
    dsimp only
    rw [submits_mid _ _ _ _ (submits_refresh caps st false) (submits_refresh caps _ true)]
    rw [(refresh_core caps st false).1]
  case isFalse h =>
    dsimp only
    rw [if_pos (not_ne_iff.mp h)]
    have h3 : submits (Eff.write "\n" :: (refresh caps st true).2) =
        submits (refresh caps st true).2 := rfl
    rw [h3, submits_refresh]

theorem pasteRest_submits (caps : Caps) :
    ∀ (ls : List JStr) (st : IOState),
      submits (pasteRest caps st ls).2 = expectedSubmits st.buffer ls := by
  intro ls
  induction ls with
  | nil => intro st; rfl
  | cons l rest ih =>
    intro st
    show submits ((boundary caps st).2 ++
        (appendToBuffer caps (boundary caps st).1 l).2 ++
        (pasteRest caps (appendToBuffer caps (boundary caps st).1 l).1 rest).2) =
      expectedSubmits st.buffer (l :: rest)
    rw [submits_append, submits_append, submits_appendToBuffer, boundary_submits, ih]
    have hb : (appendToBuffer caps (boundary caps st).1 l).1.buffer = l := by
      rw [appendToBuffer_buffer, boundary_buffer, insertAt_nil]
    rw [hb]
    simp [expectedSubmits]

theorem handleDefault_submits (caps : Caps) (st : IOState) (s : JStr) (l0 : JStr)
    (rest : List JStr) (h1 : s ≠ []) (h2 : splitLines s = l0 :: rest) :
    submits (handleDefault caps st s).2 =
      expectedSubmits (insertAt st.buffer st.cursor l0) rest := by
  unfold handleDefault
  rw [if_neg h1, h2]
  dsimp only
  rw [submits_append, submits_appendToBuffer, pasteRest_submits, appendToBuffer_buffer]
  rfl

/-! Invariant lemmas: every operation keeps the cursor inside the
buffer. -/

theorem inv_refresh (caps : Caps) (st : IOState) (c : Bool) (h : inv st) :
    inv (refresh caps st c).1 := by
  unfold inv at h ⊢
  rw [(refresh_core caps st c).1, (refresh_core caps st c).2.1]
  exact h

theorem inv_autocomplete (caps : Caps) (st : IOState) (h : inv st) :
    inv (autocomplete caps st).1 := by
  unfold inv at h ⊢
  rw [(autocomplete_core caps st).1, (autocomplete_core caps st).2.1]
  exact h

theorem inv_moveCursor (caps : Caps) (st : IOState) (n : Int) (h : inv st) :
    inv (moveCursor caps st n).1 := by
  unfold moveCursor
  split
  case isTrue => exact h
  case isFalse hc =>
    apply inv_refresh
    unfold inv
    dsimp only
    omega

theorem inv_appendToBuffer (caps : Caps) (st : IOState) (s : JStr) (h : inv st) :
    inv (appendToBuffer caps st s).1 := by
  unfold appendToBuffer
  apply inv_refresh
  unfold inv at h ⊢
  dsimp only
  unfold insertAt
  split
  case isTrue hc =>
    simp only [List.length_append, List.length_take, List.length_drop]
    omega
  case isFalse hc =>
    simp only [List.length_append]
    omega

theorem inv_boundary (caps : Caps) (st : IOState) (h : inv st) :
    inv (boundary caps st).1 := by
  unfold boundary
  split
  case isTrue =>
    dsimp only
    apply inv_refresh
    unfold inv
    dsimp only
    exact Nat.zero_le _
  case isFalse =>
    dsimp only
    exact inv_refresh caps st true h

theorem inv_pasteRest (caps : Caps) :
    ∀ (ls : List JStr) (st : IOState), inv st → inv (pasteRest caps st ls).1 := by
  intro ls
  induction ls with
  | nil => intro st h; exact h
  | cons l rest ih =>
    intro st h
    show inv (pasteRest caps (appendToBuffer caps (boundary caps st).1 l).1 rest).1
    exact ih _ (inv_appendToBuffer caps _ l (inv_boundary caps st h))

theorem inv_handleDefault (caps : Caps) (st : IOState) (s : JStr) (h : inv st) :
    inv (handleDefault caps st s).1 := by
  unfold handleDefault
  split
  case isTrue => exact h
  case isFalse =>
    split
    case h_1 => exact h
    case h_2 =>
      dsimp only
      exact inv_pasteRest caps _ _ (inv_appendToBuffer caps _ _ h)

theorem inv_delete (caps : Caps) (st : IOState) (h : inv st) :
    inv (moveCursor caps
      { st with buffer := st.buffer.take (st.cursor - 1) ++ st.buffer.drop st.cursor }
      (-1)).1 := by
  unfold inv at h
  unfold moveCursor
  split
  case isTrue hc =>
    unfold inv
    dsimp only at hc ⊢
    simp only [List.length_append, List.length_take, List.length_drop] at hc ⊢
    omega
  case isFalse hc =>
    apply inv_refresh
    unfold inv
    dsimp only
    simp only [List.length_append, List.length_take, List.length_drop]
    omega

theorem inv_dispatchSwitch (caps : Caps) (st : IOState) (k : Key) (h : inv st) :
    inv (dispatchSwitch caps st k).1 := by
  unfold dispatchSwitch
  repeat' split
  all_goals first
    | exact h
    | exact inv_autocomplete caps st h
    | exact inv_handleDefault caps st _ h
    | exact inv_moveCursor caps st _ h
    | exact inv_delete caps st h
    | (apply inv_refresh
       unfold inv
       dsimp only
       try simp only [List.length_append]
       omega)

theorem inv_handleKey (caps : Caps) (g : Bool) (st : IOState) (k : Key) (h : inv st) :
    inv (handleKey caps g st k).st := by
  unfold handleKey
  split
  case isTrue => exact h
  case isFalse =>
    split
    case isTrue =>
      split
      case isTrue => exact h
      case isFalse =>
        unfold inv
        dsimp only
        omega
    case isFalse =>
      show inv (dispatchSwitch caps st k).1
      exact inv_dispatchSwitch caps st k h

/-! Suggestion-computation lemmas for an unpaused refresh. -/

theorem refreshBase_unpaused (caps : Caps) (st : IOState) (hp : st.paused = false) :
    (refreshBase caps st).1 = { st with completionList := none, suffix := [] } := by
  unfold refreshBase
  rw [if_neg (by simp [hp])]

theorem refresh_eq_of_unpaused (caps : Caps) (st : IOState) (hp : st.paused = false)
    (hb : st.buffer ≠ []) :
    refresh caps st true =
      ((autocomplete caps { st with completionList := none, suffix := [] }).1,
       (refreshBase caps st).2 ++
         (autocomplete caps { st with completionList := none, suffix := [] }).2) := by
  unfold refresh
  rw [if_neg (by simp [hp])]
  dsimp only
  rw [refreshBase_unpaused caps st hp]
  rw [if_pos ⟨rfl, hb⟩]

theorem autocomplete_suffix_fresh (caps : Caps) (st : IOState)
    (hC : st.completionList = none) (hp : st.paused = false)
    (hc : st.cursor = st.buffer.length) (hs : st.suffix = []) :
    (autocomplete caps st).1.suffix = freshSuggestion caps st.buffer := by
  unfold autocomplete freshSuggestion
  rw [hC]
  cases hA : caps.onAutocomplete with
  | none =>
    dsimp only
    exact hs
  | some f =>
    dsimp only
    cases hF : f st.buffer with
    | none =>
      dsimp only
      exact hs
    | some c =>
      cases c with
      | nil =>
        dsimp only
        unfold refreshBase
        rw [if_neg (by simp [hp])]
      | cons x rest =>
        dsimp only
        unfold addSuffix
        rw [if_neg (by simp [hp, hc])]

/-- C1 counterexample: in the reachable state stC1 (history ["b", "a"],
history index 0, buffer "b"), a "down" key event leaves the history
index at 0; the claim says it is set to -1. -/
theorem C1_counterexample :
    stC1.histIndex ≤ 0 ∧ (handleKey caps0 false stC1 downKey).st.histIndex ≠ -1 := by
  decide

/-- C1 (amended): on a "down" key event with historyIndex at most 0 the
dispatcher sets the buffer to empty and the cursor to 0, leaves
historyIndex unchanged (the code does not write -1 into it), and
re-renders; with historyIndex above 0 it decrements historyIndex, copies
that history entry into the buffer, sets the cursor to the entry length
and re-renders.  The emitted effects are exactly those of a refresh of
the updated state. -/
theorem C1_down_navigation (caps : Caps) (g : Bool) (st : IOState) :
    (st.histIndex ≤ 0 →
      (handleKey caps g st downKey).st.buffer = [] ∧
      (handleKey caps g st downKey).st.cursor = 0 ∧
      (handleKey caps g st downKey).st.histIndex = st.histIndex ∧
      (handleKey caps g st downKey).effs =
        (refresh caps { st with buffer := [], cursor := 0 } true).2) ∧
    (0 < st.histIndex →
      (handleKey caps g st downKey).st.histIndex = st.histIndex - 1 ∧
      (handleKey caps g st downKey).st.buffer =
        st.history.getD (st.histIndex - 1).toNat [] ∧
      (handleKey caps g st downKey).st.cursor =
        (st.history.getD (st.histIndex - 1).toNat []).length ∧
      (handleKey caps g st downKey).effs =
        (refresh caps
          { st with histIndex := st.histIndex - 1,
                    buffer := st.history.getD (st.histIndex - 1).toNat [],
                    cursor := (st.history.getD (st.histIndex - 1).toNat []).length }
          true).2) := by
  have hred : handleKey caps g st downKey =
      ⟨false, false, (dispatchSwitch caps st downKey).1,
       (dispatchSwitch caps st downKey).2⟩ := rfl
  have hsw : dispatchSwitch caps st downKey =
      (if st.histIndex ≤ 0 then
        refresh caps { st with buffer := [], cursor := 0 } true
      else
        refresh caps
          { st with histIndex := st.histIndex - 1,
                    buffer := st.history.getD (st.histIndex - 1).toNat [],
                    cursor := (st.history.getD (st.histIndex - 1).toNat []).length }
          true) := rfl
  constructor
  · intro h
    rw [hred, hsw, if_pos h]
    exact ⟨(refresh_core caps _ true).1, (refresh_core caps _ true).2.1,
           (refresh_core caps _ true).2.2.2.1, rfl⟩
  · intro h
    rw [hred, hsw, if_neg (by omega)]
    exact ⟨(refresh_core caps _ true).2.2.2.1, (refresh_core caps _ true).1,
           (refresh_core caps _ true).2.1, rfl⟩

/-- C1 witness: the amended theorem applied to the two concrete browsing
states stC1 (index 0) and stD1 (index 1). -/
theorem C1_witness :
    ((handleKey caps0 false stC1 downKey).st.buffer = [] ∧
      (handleKey caps0 false stC1 downKey).st.cursor = 0 ∧
      (handleKey caps0 false stC1 downKey).st.histIndex = stC1.histIndex ∧
      (handleKey caps0 false stC1 downKey).effs =
        (refresh caps0 { stC1 with buffer := [], cursor := 0 } true).2) ∧
    ((handleKey caps0 false stD1 downKey).st.histIndex = stD1.histIndex - 1 ∧
      (handleKey caps0 false stD1 downKey).st.buffer =
        stD1.history.getD (stD1.histIndex - 1).toNat [] ∧
      (handleKey caps0 false stD1 downKey).st.cursor =
        (stD1.history.getD (stD1.histIndex - 1).toNat []).length ∧
      (handleKey caps0 false stD1 downKey).effs =
        (refresh caps0
          { stD1 with histIndex := stD1.histIndex - 1,
                      buffer := stD1.history.getD (stD1.histIndex - 1).toNat [],
                      cursor := (stD1.history.getD (stD1.histIndex - 1).toNat []).length }
          true).2) :=
  ⟨(C1_down_navigation caps0 false stC1).1 (by decide),
   (C1_down_navigation caps0 false stD1).2 (by decide)⟩

/-- C2 counterexample: the payload consisting of a single newline has
one line-terminator boundary, yet pasting it into the empty editor
invokes the submission handler zero times, because the buffer at the
boundary is empty; the claim predicts exactly one invocation. -/
theorem C2_counterexample :
    (splitLines ['\n']).length - 1 = 1 ∧
    submits (handleDefault caps0 emptySt ['\n']).2 = [] := by
  decide

/-- C2 (amended): for every pasted payload, the submission handler is
invoked exactly once per line-terminator boundary whose preceding buffer
content is nonempty, sequentially and in left-to-right segment order: the
recorded submissions are expectedSubmits of the buffer after splicing the
first segment at the cursor, over the remaining segments.  Boundaries
whose accumulated line is empty write a bare newline and submit
nothing. -/
theorem C2_paste_submissions (caps : Caps) (st : IOState) (s : JStr) (l0 : JStr)
    (rest : List JStr) (h1 : s ≠ []) (h2 : splitLines s = l0 :: rest) :
    submits (handleDefault caps st s).2 =
      expectedSubmits (insertAt st.buffer st.cursor l0) rest :=
  handleDefault_submits caps st s l0 rest h1 h2

/-- C2 witness: pasting "x\ny" into the empty editor submits exactly
["x"]. -/
theorem C2_witness :
    submits (handleDefault caps0 emptySt ['x', '\n', 'y']).2 =
      expectedSubmits (insertAt emptySt.buffer emptySt.cursor ['x']) [['y']] ∧
    expectedSubmits (insertAt emptySt.buffer emptySt.cursor ['x']) [['y']] = [['x']] :=
  ⟨C2_paste_submissions caps0 emptySt ['x', '\n', 'y'] ['x'] [['y']]
    (by decide) (by decide),
   by decide⟩

/-- C3: for every editor state satisfying the cursor invariant and every
key event, the state after the dispatcher processes the event satisfies
0 ≤ cursor ≤ length(buffer).  The lower bound is enforced in the
embedding by the same guards the code performs on signed arithmetic
before any cursor write, so the cursor lives in Nat; the upper bound is
the inductive invariant. -/
theorem C3_cursor_invariant (caps : Caps) (g : Bool) (st : IOState) (k : Key)
    (h : inv st) :
    0 ≤ (handleKey caps g st k).st.cursor ∧
    (handleKey caps g st k).st.cursor ≤ (handleKey caps g st k).st.buffer.length :=
  ⟨Nat.zero_le _, inv_handleKey caps g st k h⟩

/-- C3 witness: the invariant theorem applied to the concrete state stC5
and the plain keystroke "a". -/
theorem C3_witness :
    inv stC5 ∧
    (0 ≤ (handleKey caps0 false stC5 kA).st.cursor ∧
      (handleKey caps0 false stC5 kA).st.cursor ≤
        (handleKey caps0 false stC5 kA).st.buffer.length) :=
  ⟨(by decide : stC5.cursor ≤ stC5.buffer.length),
   C3_cursor_invariant caps0 false stC5 kA
     (by decide : stC5.cursor ≤ stC5.buffer.length)⟩

/-- C4: with the exit guard unset, a ctrl/meta-c press does not emit the
termination signal but prints the warning, clears buffer and cursor and
arms the guard; an immediately following ctrl/meta-c emits the
termination signal; any unmodified key between the two presses disarms
the guard, so a later ctrl/meta-c does not terminate. -/
theorem C4_exit_guard (caps : Caps) (st st2 st3 : IOState) (cm k : Key)
    (hcm : cm.ctrl = true ∨ cm.meta = true) (hn : cm.name = some "c")
    (hk1 : k.ctrl = false) (hk2 : k.meta = false) :
    (handleKey caps false st cm).exit = false ∧
    (handleKey caps false st cm).guard = true ∧
    (handleKey caps false st cm).st.buffer = [] ∧
    (handleKey caps false st cm).st.cursor = 0 ∧
    (handleKey caps false st cm).effs = [Eff.write (warnMsg "c")] ∧
    (handleKey caps (handleKey caps false st cm).guard st2 cm).exit = true ∧
    (handleKey caps true st2 k).guard = false ∧
    (handleKey caps (handleKey caps true st2 k).guard st3 cm).exit = false := by
  obtain ⟨nm, mc, mm, ms⟩ := cm
  obtain ⟨nk, kc, km, ks⟩ := k
  dsimp only at hcm hn hk1 hk2
  subst hn hk1 hk2
  have hno : ¬((mc = true ∨ mm = true) ∧
      ((some "c" : Option String) = some "d" ∨ (some "c" : Option String) = some "z")) :=
    fun hab => (by decide :
      ¬(((some "c" : Option String) = some "d") ∨ ((some "c" : Option String) = some "z")))
      hab.2
  have e1 : ∀ s : IOState, handleKey caps false s ⟨some "c", mc, mm, ms⟩ =
      ⟨false, true, { s with buffer := [], cursor := 0 }, [Eff.write (warnMsg "c")]⟩ := by
    intro s
    unfold handleKey
    rw [if_neg hno, if_pos ⟨hcm, rfl⟩]
    rfl
  have e2 : ∀ s : IOState, (handleKey caps true s ⟨some "c", mc, mm, ms⟩).exit = true := by
    intro s
    unfold handleKey
    rw [if_neg hno, if_pos ⟨hcm, rfl⟩]
    rfl
  have e3 : (handleKey caps true st2 ⟨nk, false, false, ks⟩).guard = false := by
    unfold handleKey
    rw [if_neg (fun hab => absurd hab.1 (by decide : ¬(false = true ∨ false = true))),
        if_neg (fun hab => absurd hab.1 (by decide : ¬(false = true ∨ false = true)))]
  refine ⟨?_, ?_, ?_, ?_, ?_, ?_, e3, ?_⟩
  · rw [e1 st]
  · rw [e1 st]
  · rw [e1 st]
  · rw [e1 st]
  · rw [e1 st]
  · rw [e1 st]
    exact e2 st2
  · rw [e3]
    rw [e1 st3]

/-- C4 witness: the guard theorem applied to the concrete ctrl-c event,
the plain keystroke "a" and concrete states. -/
theorem C4_witness :
    (handleKey caps0 false emptySt ⟨some "c", true, false, []⟩).exit = false ∧
    (handleKey caps0 false emptySt ⟨some "c", true, false, []⟩).guard = true ∧
    (handleKey caps0 false emptySt ⟨some "c", true, false, []⟩).st.buffer = [] ∧
    (handleKey caps0 false emptySt ⟨some "c", true, false, []⟩).st.cursor = 0 ∧
    (handleKey caps0 false emptySt ⟨some "c", true, false, []⟩).effs =
      [Eff.write (warnMsg "c")] ∧
    (handleKey caps0 (handleKey caps0 false emptySt ⟨some "c", true, false, []⟩).guard
      stC5 ⟨some "c", true, false, []⟩).exit = true ∧
    (handleKey caps0 true stC5 kA).guard = false ∧
    (handleKey caps0 (handleKey caps0 true stC5 kA).guard stD1
      ⟨some "c", true, false, []⟩).exit = false :=
  C4_exit_guard caps0 emptySt stC5 stD1 ⟨some "c", true, false, []⟩ kA
    (Or.inl rfl) rfl rfl rfl

/-- C5: inserting text s at cursor c within the buffer yields the spliced
buffer take c ++ s ++ drop c and moves the cursor to c + length s. -/
theorem C5_insert_at_cursor (caps : Caps) (st : IOState) (s : JStr)
    (h : st.cursor ≤ st.buffer.length) :
    (appendToBuffer caps st s).1.buffer =
      st.buffer.take st.cursor ++ s ++ st.buffer.drop st.cursor ∧
    (appendToBuffer caps st s).1.cursor = st.cursor + s.length := by
  constructor
  · rw [appendToBuffer_buffer]
    unfold insertAt
    split
    case isTrue => rfl
    case isFalse hc =>
      have hce : st.cursor = st.buffer.length := le_antisymm h (Nat.not_lt.mp hc)
      rw [hce, List.take_length, List.drop_length, List.append_nil]
  · exact appendToBuffer_cursor caps st s

/-- C5 witness: inserting "x" into "ab" at cursor 1 yields "axb" with
cursor 2. -/
theorem C5_witness :
    ((appendToBuffer caps0 stC5 ['x']).1.buffer =
        stC5.buffer.take stC5.cursor ++ ['x'] ++ stC5.buffer.drop stC5.cursor ∧
      (appendToBuffer caps0 stC5 ['x']).1.cursor = stC5.cursor + ['x'].length) ∧
    stC5.buffer.take stC5.cursor ++ ['x'] ++ stC5.buffer.drop stC5.cursor =
      ['a', 'x', 'b'] :=
  ⟨C5_insert_at_cursor caps0 stC5 ['x'] (by decide), by decide⟩

/-- C6 counterexample: in state st6 (buffer "a", cursor at end, ghost
suggestion "foo") with a completion lookup that offers "z", accepting
with "right" leaves a nonempty Suggestion: the re-render immediately
displays the fresh candidate "z", so the claim that the Suggestion ends
cleared is false. -/
theorem C6_counterexample :
    st6.cursor = st6.buffer.length ∧ st6.suffix ≠ [] ∧
    (handleKey caps6 false st6 rightKey).st.suffix ≠ [] := by
  decide

/-- C6 (amended): a "right" key event with the cursor at the end of the
buffer and a Suggestion present appends the suggestion to the buffer,
advances the cursor by its length, and clears the displayed suggestion
before re-rendering; the re-render then shows freshSuggestion, the head
of a fresh completion lookup on the extended buffer, which is empty
exactly when no lookup capability exists or the lookup yields no
candidate. -/
theorem C6_accept_suggestion (caps : Caps) (g : Bool) (st : IOState)
    (h1 : st.cursor = st.buffer.length) (h2 : st.suffix ≠ [])
    (h3 : st.paused = false) :
    (handleKey caps g st rightKey).st.buffer = st.buffer ++ st.suffix ∧
    (handleKey caps g st rightKey).st.cursor = st.cursor + st.suffix.length ∧
    (handleKey caps g st rightKey).st.suffix =
      freshSuggestion caps (st.buffer ++ st.suffix) := by
  have hred : handleKey caps g st rightKey =
      ⟨false, false, (dispatchSwitch caps st rightKey).1,
       (dispatchSwitch caps st rightKey).2⟩ := rfl
  have hsw : dispatchSwitch caps st rightKey =
      (if st.cursor = st.buffer.length then
        (if st.suffix ≠ [] then
          refresh caps
            { st with completionList := none, buffer := st.buffer ++ st.suffix,
                      cursor := st.cursor + st.suffix.length } true
         else (st, []))
      else moveCursor caps st 1) := rfl
  rw [hred, hsw, if_pos h1, if_pos h2]
  refine ⟨(refresh_core caps _ true).1, (refresh_core caps _ true).2.1, ?_⟩
  have hbA : st.buffer ++ st.suffix ≠ [] :=
    fun hq => h2 (List.append_eq_nil.mp hq).2
  rw [refresh_eq_of_unpaused caps
      { st with completionList := none, buffer := st.buffer ++ st.suffix,
                cursor := st.cursor + st.suffix.length } h3 hbA]
  dsimp only
  exact autocomplete_suffix_fresh caps _ rfl h3
    (by dsimp only; rw [List.length_append, h1]) rfl

/-- C6 witness: the amended theorem applied to caps6 and st6, where the
fresh suggestion after accepting "foo" is "z". -/
theorem C6_witness :
    ((handleKey caps6 false st6 rightKey).st.buffer = st6.buffer ++ st6.suffix ∧
      (handleKey caps6 false st6 rightKey).st.cursor =
        st6.cursor + st6.suffix.length ∧
      (handleKey caps6 false st6 rightKey).st.suffix =
        freshSuggestion caps6 (st6.buffer ++ st6.suffix)) ∧
    freshSuggestion caps6 (st6.buffer ++ st6.suffix) = ['z'] :=
  ⟨C6_accept_suggestion caps6 false st6 (by decide) (by decide) rfl, by decide⟩

/-- C7: with a completion lookup answering ["abc", "abd"] for the buffer
"ab", four consecutive tab presses from st7 show suggestion "abc", then
"abd", then no suggestion with the queue cleared to absent, then
re-invoke the lookup and show "abc" again; and the cycler never mutates
the buffer or the cursor in any state. -/
theorem C7_tab_cycling :
    (tabSt1.suffix = ['a', 'b', 'c'] ∧
      tabSt2.suffix = ['a', 'b', 'd'] ∧
      tabSt3.suffix = [] ∧ tabSt3.completionList = none ∧
      tabSt4.suffix = ['a', 'b', 'c'] ∧
      Eff.lookup ['a', 'b'] ∈ (handleKey caps7 false tabSt3 tabKey).effs ∧
      tabSt4.buffer = st7.buffer ∧ tabSt4.cursor = st7.cursor) ∧
    (∀ (caps : Caps) (st : IOState),
      (autocomplete caps st).1.buffer = st.buffer ∧
      (autocomplete caps st).1.cursor = st.cursor) :=
  ⟨by decide,
   fun caps st => ⟨(autocomplete_core caps st).1, (autocomplete_core caps st).2.1⟩⟩

/-- C8: a cursor move whose target lies outside the buffer is silently
rejected: moveCursor returns the state unchanged with no effects, and in
particular "left" at cursor 0 and "right" at the end of the buffer with
no Suggestion leave the line state untouched, emit nothing and do not
terminate. -/
theorem C8_rejected_moves (caps : Caps) (g : Bool) (st : IOState) :
    (∀ n : Int,
      ((st.cursor : Int) + n < 0 ∨ (st.cursor : Int) + n > (st.buffer.length : Int)) →
      moveCursor caps st n = (st, [])) ∧
    (st.cursor = 0 → handleKey caps g st leftKey = ⟨false, false, st, []⟩) ∧
    (st.cursor = st.buffer.length → st.suffix = [] →
      handleKey caps g st rightKey = ⟨false, false, st, []⟩) := by
  refine ⟨?_, ?_, ?_⟩
  · intro n hn
    unfold moveCursor
    rw [if_pos hn]
  · intro h0
    have hred : handleKey caps g st leftKey =
        ⟨false, false, (moveCursor caps st (-1)).1, (moveCursor caps st (-1)).2⟩ := rfl
    rw [hred]
    unfold moveCursor
    rw [if_pos (by omega)]
  · intro h1 h2
    have hred : handleKey caps g st rightKey =
        ⟨false, false, (dispatchSwitch caps st rightKey).1,
         (dispatchSwitch caps st rightKey).2⟩ := rfl
    have hsw : dispatchSwitch caps st rightKey =
        (if st.cursor = st.buffer.length then
          (if st.suffix ≠ [] then
            refresh caps
              { st with completionList := none, buffer := st.buffer ++ st.suffix,
                        cursor := st.cursor + st.suffix.length } true
           else (st, []))
        else moveCursor caps st 1) := rfl
    rw [hred, hsw, if_pos h1, if_neg (not_ne_iff.mpr h2)]

/-- C8 witness: the rejection theorem applied at the empty state for a
left move from 0, a left key press at cursor 0 and a right key press at
the buffer end without a suggestion. -/
theorem C8_witness :
    moveCursor caps0 emptySt (-1) = (emptySt, []) ∧
    handleKey caps0 false emptySt leftKey = ⟨false, false, emptySt, []⟩ ∧
    handleKey caps0 false emptySt rightKey = ⟨false, false, emptySt, []⟩ :=
  ⟨(C8_rejected_moves caps0 false emptySt).1 (-1) (by decide),
   (C8_rejected_moves caps0 false emptySt).2.1 (by decide),
   (C8_rejected_moves caps0 false emptySt).2.2 (by decide) (by decide)⟩

/-- C9: without an autocomplete lookup capability, a tab key event is a
complete no-op: no lookup is invoked, the state is unchanged, no effect
is emitted and no termination is signalled. -/
theorem C9_tab_without_lookup (caps : Caps) (g : Bool) (st : IOState)
    (h : caps.onAutocomplete = none) :
    handleKey caps g st tabKey = ⟨false, false, st, []⟩ := by
  have hred : handleKey caps g st tabKey =
      ⟨false, false, (autocomplete caps st).1, (autocomplete caps st).2⟩ := rfl
  rw [hred]
  unfold autocomplete
  rw [h]

/-- C9 witness: the no-op theorem applied to caps0, which supplies no
lookup. -/
theorem C9_witness :
    handleKey caps0 false stC5 tabKey = ⟨false, false, stC5, []⟩ :=
  C9_tab_without_lookup caps0 false stC5 rfl

/-- C10: with the lookup capability present and a nonempty completion
queue, cycling always removes the first candidate from the queue; and
when the controller is paused or the cursor is not at the end of the
buffer, the candidate is still consumed even though nothing is displayed
and no effect is emitted. -/
theorem C10_queue_consumed (caps : Caps) (f : JStr → Option (List JStr))
    (st : IOState) (x : JStr) (rest : List JStr)
    (hA : caps.onAutocomplete = some f) (hC : st.completionList = some (x :: rest)) :
    (autocomplete caps st).1.completionList = some rest ∧
    (st.paused = true ∨ st.cursor ≠ st.buffer.length →
      autocomplete caps st = ({ st with completionList := some rest }, [])) := by
  unfold autocomplete
  rw [hA, hC]
  dsimp only
  constructor
  · unfold addSuffix
    split <;> rfl
  · intro hskip
    unfold addSuffix
    rw [if_pos hskip]

/-- C10 witness: the consumption theorem applied to the paused state
st10 holding the queued candidate "q". -/
theorem C10_witness :
    (autocomplete caps6 st10).1.completionList = some [] ∧
    autocomplete caps6 st10 = ({ st10 with completionList := some [] }, []) :=
  ⟨(C10_queue_consumed caps6 _ st10 ['q'] [] rfl rfl).1,
   (C10_queue_consumed caps6 _ st10 ['q'] [] rfl rfl).2 (Or.inl rfl)⟩

end Repl
